import Mathlib

/-!
Verification of the schema-driven editor core of this repository
(`src/unnamed/part_000`): the descriptor model (`defaultFor`, `getChoices`),
the reconciliation engine (`buildSanitizedFromSource`), the reset procedure
(`resetToDefaults`), the array-element edit handler of `makeControl`, and the
serializer (`prettyPrintJSON`).

The JavaScript value universe is modelled by `JSVal`: JSON-shaped data as it
exists after `JSON.parse` / before `JSON.stringify`.  JavaScript objects are
modelled as association lists in insertion order (a parsed JSON object has
unique keys; `Object.keys` enumerates the non-integer-like keys in insertion
order, and every key appearing in this development is non-integer-like).
JavaScript numbers are modelled as integers: the only facts used about number
rendering are that it is injective and produces no comma, bracket, brace or
whitespace characters, which holds for the integer case; floating-point
formatting is outside the model.  There is no `undefined` value: a property is
either present (with a JSON value) or absent, which matches data that came
through `JSON.parse`.
-/

namespace Deesse

inductive JSVal where
  | bool (b : Bool)
  | num (n : Int)
  | str (s : String)
  | arr (xs : List JSVal)
  | null
  | obj (fields : List (String × JSVal))
  deriving Repr

mutual

def JSVal.decEq : (a b : JSVal) → Decidable (a = b)
  | .bool a, .bool b =>
    match Bool.decEq a b with
    | isTrue h => isTrue (by rw [h])
    | isFalse h => isFalse (fun e => h (by injection e))
  | .num a, .num b =>
    match Int.instDecidableEq a b with
    | isTrue h => isTrue (by rw [h])
    | isFalse h => isFalse (fun e => h (by injection e))
  | .str a, .str b =>
    match String.decEq a b with
    | isTrue h => isTrue (by rw [h])
    | isFalse h => isFalse (fun e => h (by injection e))
  | .arr a, .arr b =>
    match JSVal.decEqList a b with
    | isTrue h => isTrue (by rw [h])
    | isFalse h => isFalse (fun e => h (by injection e))
  | .null, .null => isTrue rfl
  | .obj a, .obj b =>
    match JSVal.decEqFields a b with
    | isTrue h => isTrue (by rw [h])
    | isFalse h => isFalse (fun e => h (by injection e))
  | .bool _, .num _ => isFalse (fun h => JSVal.noConfusion h)
  | .bool _, .str _ => isFalse (fun h => JSVal.noConfusion h)
  | .bool _, .arr _ => isFalse (fun h => JSVal.noConfusion h)
  | .bool _, .null => isFalse (fun h => JSVal.noConfusion h)
  | .bool _, .obj _ => isFalse (fun h => JSVal.noConfusion h)
  | .num _, .bool _ => isFalse (fun h => JSVal.noConfusion h)
  | .num _, .str _ => isFalse (fun h => JSVal.noConfusion h)
  | .num _, .arr _ => isFalse (fun h => JSVal.noConfusion h)
  | .num _, .null => isFalse (fun h => JSVal.noConfusion h)
  | .num _, .obj _ => isFalse (fun h => JSVal.noConfusion h)
  | .str _, .bool _ => isFalse (fun h => JSVal.noConfusion h)
  | .str _, .num _ => isFalse (fun h => JSVal.noConfusion h)
  | .str _, .arr _ => isFalse (fun h => JSVal.noConfusion h)
  | .str _, .null => isFalse (fun h => JSVal.noConfusion h)
  | .str _, .obj _ => isFalse (fun h => JSVal.noConfusion h)
  | .arr _, .bool _ => isFalse (fun h => JSVal.noConfusion h)
  | .arr _, .num _ => isFalse (fun h => JSVal.noConfusion h)
  | .arr _, .str _ => isFalse (fun h => JSVal.noConfusion h)
  | .arr _, .null => isFalse (fun h => JSVal.noConfusion h)
  | .arr _, .obj _ => isFalse (fun h => JSVal.noConfusion h)
  | .null, .bool _ => isFalse (fun h => JSVal.noConfusion h)
  | .null, .num _ => isFalse (fun h => JSVal.noConfusion h)
  | .null, .str _ => isFalse (fun h => JSVal.noConfusion h)
  | .null, .arr _ => isFalse (fun h => JSVal.noConfusion h)
  | .null, .obj _ => isFalse (fun h => JSVal.noConfusion h)
  | .obj _, .bool _ => isFalse (fun h => JSVal.noConfusion h)
  | .obj _, .num _ => isFalse (fun h => JSVal.noConfusion h)
  | .obj _, .str _ => isFalse (fun h => JSVal.noConfusion h)
  | .obj _, .arr _ => isFalse (fun h => JSVal.noConfusion h)
  | .obj _, .null => isFalse (fun h => JSVal.noConfusion h)

def JSVal.decEqList : (xs ys : List JSVal) → Decidable (xs = ys)
  | [], [] => isTrue rfl
  | [], _ :: _ => isFalse (fun h => List.noConfusion h)
  | _ :: _, [] => isFalse (fun h => List.noConfusion h)
  | x :: xs, y :: ys =>
    match JSVal.decEq x y with
    | isFalse h => isFalse (fun e => h (by injection e))
    | isTrue h1 =>
      match JSVal.decEqList xs ys with
      | isTrue h2 => isTrue (by rw [h1, h2])
      | isFalse h2 => isFalse (fun e => h2 (by injection e))

def JSVal.decEqFields : (fs gs : List (String × JSVal)) → Decidable (fs = gs)
  | [], [] => isTrue rfl
  | [], _ :: _ => isFalse (fun h => List.noConfusion h)
  | _ :: _, [] => isFalse (fun h => List.noConfusion h)
  | (k, v) :: fs, (k', v') :: gs =>
    match String.decEq k k' with
    | isFalse h => isFalse (fun e => h (by injection e with e1 e2; injection e1))
    | isTrue hk =>
      match JSVal.decEq v v' with
      | isFalse h => isFalse (fun e => h (by injection e with e1 e2; injection e1))
      | isTrue hv =>
        match JSVal.decEqFields fs gs with
        | isTrue ht => isTrue (by rw [hk, hv, ht])
        | isFalse h => isFalse (fun e => h (by injection e))

end

instance : DecidableEq JSVal := JSVal.decEq

/-- First-match association-list lookup: JavaScript property read `o[k]` on a
plain object (keys of a parsed JSON object are unique, so first match is the
only match). -/
def lookupField : List (String × JSVal) → String → Option JSVal
  | [], _ => none
  | (k', v) :: rest, k => if k' = k then some v else lookupField rest k

/-- Own-property read: `o[k]` when `o` is an object, `undefined` (`none`)
otherwise.  The descriptors and documents handled by the editor are JSON
objects or `null`; property reads on other primitives never yield a value the
code branches on. -/
def getOwn : JSVal → String → Option JSVal
  | .obj fs, k => lookupField fs k
  | _, _ => none

/-- JavaScript truthiness of the modelled values: `null`, `false`, `0` and
`""` are falsy; every other modelled value (including any object and any
array) is truthy. -/
def jsTruthy : JSVal → Bool
  | .null => false
  | .bool b => b
  | .num n => n != 0
  | .str s => s != ""
  | .arr _ => true
  | .obj _ => true

/-- `Object.prototype.hasOwnProperty.call(source, k)` for the modelled values:
true exactly when `source` is an object owning `k`.  (With no `undefined`
values in the model, an owned property always carries a value.) -/
def hasOwn (v : JSVal) (k : String) : Bool :=
  (getOwn v k).isSome

/-- `Array.isArray(v)`. -/
def isJsArr : JSVal → Bool
  | .arr _ => true
  | _ => false

/-- The JavaScript `a || b` read off an optional property: `undefined`
(absent) and falsy values fall through to the default. -/
def jsOr (o : Option JSVal) (d : JSVal) : JSVal :=
  match o with
  | some v => if jsTruthy v then v else d
  | none => d

mutual

/-- JavaScript `String(v)` for the modelled values.  Arrays stringify by
joining their elements with `,`, rendering `null` elements as the empty
string (`Array.prototype.toString`); plain objects render as
`[object Object]`. -/
def jsToString : JSVal → String
  | .bool true => "true"
  | .bool false => "false"
  | .num n => toString n
  | .str s => s
  | .null => "null"
  | .arr xs => String.intercalate "," (jsToStringElems xs)
  | .obj _ => "[object Object]"

def jsToStringElems : List JSVal → List String
  | [] => []
  | .null :: rest => "" :: jsToStringElems rest
  | x :: rest => jsToString x :: jsToStringElems rest

end

/-- The digit suffix of a key matching `^choice_(\d+)$`: the characters after
the literal prefix `choice_`, required to be one or more decimal digits. -/
def choiceDigits : List Char → Option (List Char)
  | 'c' :: 'h' :: 'o' :: 'i' :: 'c' :: 'e' :: '_' :: ds =>
    if ds ≠ [] ∧ ds.all Char.isDigit then some ds else none
  | _ => none

/-- The key pattern `^choice_(\d+)$` of `getChoices`: returns the integer
suffix when the key is `choice_` followed by one or more decimal digits
(`Number` of a digit string, so leading zeros are allowed and collapse). -/
def choiceIdx (k : String) : Option Nat :=
  (choiceDigits k.data).map (fun ds => ds.foldl (fun n c => 10 * n + (c.toNat - 48)) 0)

/-- The `{idx, val}` records `getChoices` collects from a descriptor's own
keys matching `choice_<digits>`, in key (insertion) order, with the values
already stringified. -/
def choicePairs (fs : List (String × JSVal)) : List (Nat × String) :=
  fs.filterMap (fun kv => (choiceIdx kv.1).map (fun n => (n, jsToString kv.2)))

/-- `choices.sort((a,b) => a.idx - b.idx)`: a stable ascending sort by the
numeric index (`Array.prototype.sort` is stable, so the result is the unique
stable ascending ordering; insertion sort by `≤` on the index computes it). -/
def sortChoicePairs (l : List (Nat × String)) : List (Nat × String) :=
  l.insertionSort (fun a b => a.1 ≤ b.1)

/-- `getChoices(desc)` from the source: a falsy descriptor yields `[]`; if
`desc.choices` is an array, every entry is stringified and returned in order;
otherwise the descriptor's own `choice_<N>` keys are collected, sorted
ascending by `N`, and their stringified values returned; with no numbered
keys the result is `[]`. -/
def getChoices (desc : JSVal) : List String :=
  if ¬ jsTruthy desc then []
  else
    match getOwn desc "choices" with
    | some (.arr cs) => cs.map jsToString
    | _ =>
      match desc with
      | .obj fs =>
        let pairs := choicePairs fs
        if pairs.length ≠ 0 then (sortChoicePairs pairs).map Prod.snd else []
      | _ => []

/-- `structuredClone` on JSON-shaped data: a deep copy, which in a pure value
model is the identity.  (Sharing and in-place mutation are treated separately
in the heap model below.) -/
def structuredCloneJS (v : JSVal) : JSVal := v

/-- `Array(c).fill(0)`: a length-`c` zero array when `c` is a number that is a
valid array length (`0 ≤ c < 2^32`), a thrown `RangeError` (`none`) for other
numbers, and the single-element array `[0]` when `c` is not a number
(`Array(v)` then creates `[v]`, which `fill` overwrites). -/
def jsArrayFill0 : JSVal → Option (List JSVal)
  | .num n => if 0 ≤ n ∧ n < 4294967296 then some (List.replicate n.toNat (.num 0)) else none
  | _ => some [.num 0]

/-- `defaultFor(desc)` from the source.  `none` models a thrown exception
(only possible through `Array(desc.count)` on an invalid length); `some v` is
the returned value. -/
def defaultFor (desc : JSVal) : Option JSVal :=
  if ¬ jsTruthy desc then some .null
  else
    match getOwn desc "default" with
    | some d => some (structuredCloneJS d)
    | none =>
      match getOwn desc "type" with
      | some (.str "boolean") => some (.bool false)
      | some (.str "number") => some (.num 0)
      | some (.str "number_array") =>
        (jsArrayFill0 (jsOr (getOwn desc "count") (.num 2))).map .arr
      | some (.str "string") => some (.str "")
      | some (.str "choice") =>
        some (.str (match getChoices desc with | [] => "" | c :: _ => c))
      | _ => some .null

/-- The section test of `buildSanitizedFromSource` (and of the render loop):
`desc && desc.type === 'section'`. -/
def isSectionDesc (d : JSVal) : Bool :=
  jsTruthy d && match getOwn d "type" with
    | some (.str t) => t == "section"
    | _ => false

/-- The read `source && Object.prototype.hasOwnProperty.call(source, k) ?
source[k] : ...` condensed: the value taken from the source document, when the
source is truthy and owns the key. -/
def getSourceVal (source : JSVal) (k : String) : Option JSVal :=
  if jsTruthy source then getOwn source k else none

/-- `buildSanitizedFromSource(source)` from the source, with the schema's
`config.variables` passed explicitly as `cfgVars` (the code reads it from a
module-level binding).  Iterates the schema entries in order, skipping
sections; a key owned by a truthy source document is copied verbatim,
otherwise `defaultFor` supplies the value.  `none` models a thrown exception
(propagated from `defaultFor`). -/
def buildSanitizedFromSource : List (String × JSVal) → JSVal → Option (List (String × JSVal))
  | [], _ => some []
  | (k, desc) :: rest, source =>
    if isSectionDesc desc then
      buildSanitizedFromSource rest source
    else
      match getSourceVal source k with
      | some v => (buildSanitizedFromSource rest source).map (fun tail => (k, v) :: tail)
      | none =>
        match defaultFor desc with
        | some d => (buildSanitizedFromSource rest source).map (fun tail => (k, d) :: tail)
        | none => none

/-! ## Reset procedure -/

/-- `resetToDefaults()` from the source, with its inputs passed explicitly:
`savedResult` is the value `loadUserState()` produced (the parsed stored user
state, or `null` when the storage entry is absent or unparseable) and
`defaults` is the module-level defaults object.  Returns the new `variables`
object and the status text.  `structuredClone` is a deep copy, the identity
on values. -/
def resetToDefaults (savedResult : JSVal) (defaults : List (String × JSVal)) :
    JSVal × String :=
  if jsTruthy savedResult then
    (structuredCloneJS savedResult, "Restored last used state (from this tab).")
  else
    (structuredCloneJS (.obj defaults), "Reset to defaults.")

/-! ## The `number_array` branch of `makeControl` -/

/-- The `count` binding of the `number_array` branch of `makeControl`:
`desc.count || (Array.isArray(value) ? value.length : 2)`, where `value` is
the value the control was rendered with. -/
def numberArrayCount (desc : JSVal) (value : JSVal) : JSVal :=
  jsOr (getOwn desc "count")
    (match value with
     | .arr xs => .num xs.length
     | _ => .num 2)

/-- JavaScript array element assignment `xs[idx] = v`: an in-bounds write
updates the element, an out-of-bounds write extends the array (the
intermediate holes read back as `undefined` and serialize as `null`, modelled
by `null` elements). -/
def jsArraySet (xs : List JSVal) (idx : Nat) (v : JSVal) : List JSVal :=
  if idx < xs.length then xs.set idx v
  else xs ++ List.replicate (idx - xs.length) .null ++ [v]

/-- The non-empty-input path of the `input` handler of one `number_array`
element control (source lines 252-259): given the resolved `count`, the
current backing value `variables[key]`, the element index and the parsed new
number, it reinitializes a non-array backing value to `Array(count).fill(0)`
and then writes the edited index.  `none` models a thrown exception (only
possible through `Array(count)` on an invalid length). -/
def numberArrayEdit (count : JSVal) (cur : JSVal) (idx : Nat) (newVal : Int) :
    Option JSVal :=
  match cur with
  | .arr xs => some (.arr (jsArraySet xs idx (.num newVal)))
  | _ =>
    match jsArrayFill0 count with
    | some xs => some (.arr (jsArraySet xs idx (.num newVal)))
    | none => none

/-! ## Serializer: `JSON.stringify(obj, null, 2)` -/

/-- Lowercase hexadecimal digit. -/
def hexDigit (n : Nat) : Char :=
  if n < 10 then Char.ofNat (48 + n) else Char.ofNat (87 + n)

/-- Four-digit lowercase hexadecimal rendering used by `\uXXXX` escapes. -/
def hex4 (n : Nat) : String :=
  ⟨[hexDigit (n / 4096 % 16), hexDigit (n / 256 % 16), hexDigit (n / 16 % 16), hexDigit (n % 16)]⟩

/-- JSON string-character escaping as performed by `JSON.stringify`: quote,
backslash and the named control characters get two-character escapes, the
remaining control characters get `\uXXXX`, everything else is verbatim. -/
def escapeJsonChar (c : Char) : String :=
  if c = '"' then "\\\""
  else if c = '\\' then "\\\\"
  else if c = '\n' then "\\n"
  else if c = '\r' then "\\r"
  else if c = '\t' then "\\t"
  else if c = '\x08' then "\\b"
  else if c = '\x0c' then "\\f"
  else if c.toNat < 32 then "\\u" ++ hex4 c.toNat
  else String.singleton c

/-- A JSON string literal: `JSON.stringify` of a string value. -/
def jsonQuote (s : String) : String :=
  "\"" ++ String.join (s.data.map escapeJsonChar) ++ "\""

/-- `n` two-space indentation steps. -/
def indentStr (n : Nat) : String :=
  ⟨List.replicate (2 * n) ' '⟩

mutual

/-- `JSON.stringify(v, null, 2)` at nesting depth `ind`: the standard
pretty-printed JSON rendering with two-space indentation, empty arrays and
objects rendered as `[]` and open-close braces with nothing between, keys in
insertion order. -/
def stringifyVal : JSVal → Nat → String
  | .null, _ => "null"
  | .bool true, _ => "true"
  | .bool false, _ => "false"
  | .num n, _ => toString n
  | .str s, _ => jsonQuote s
  | .arr [], _ => "[]"
  | .arr (x :: xs), ind =>
    "[\n" ++ stringifyElems (x :: xs) (ind + 1) ++ "\n" ++ indentStr ind ++ "]"
  | .obj [], _ => "\x7b\x7d"
  | .obj (f :: fs), ind =>
    "\x7b\n" ++ stringifyFields (f :: fs) (ind + 1) ++ "\n" ++ indentStr ind ++ "\x7d"

def stringifyElems : List JSVal → Nat → String
  | [], _ => ""
  | [x], ind => indentStr ind ++ stringifyVal x ind
  | x :: y :: rest, ind =>
    indentStr ind ++ stringifyVal x ind ++ ",\n" ++ stringifyElems (y :: rest) ind

def stringifyFields : List (String × JSVal) → Nat → String
  | [], _ => ""
  | [(k, v)], ind => indentStr ind ++ jsonQuote k ++ ": " ++ stringifyVal v ind
  | (k, v) :: f :: fs, ind =>
    indentStr ind ++ jsonQuote k ++ ": " ++ stringifyVal v ind ++ ",\n" ++
      stringifyFields (f :: fs) ind

end

/-! ## Serializer: the array-collapsing regex of `prettyPrintJSON`

`prettyPrintJSON` post-processes the `JSON.stringify` text with

  `s.replace(/\[\n(\s*)([^\[\]\{\}]*?)\n\s*\]/gs, cb)`

where the callback joins the interior lines with spaces, normalizes commas,
trims, and wraps the result in brackets.  The functions below implement that
regex faithfully, character by character: a global scan that at each position
attempts a match (`[` then a newline, then the greedy whitespace group
longest-first, then the lazy bracket-free group shortest-first, then the
terminator `\n\s*]`), replaces the leftmost match and resumes after it.
Recursion is fueled by the remaining length, which every step strictly
decreases. -/

/-- JavaScript whitespace (`\s`, `trim`): the ASCII whitespace characters,
no-break space and BOM.  (Further exotic Unicode space code points also count
in JavaScript; none of them can occur in `JSON.stringify` output, where the
only whitespace is spaces and newlines of the indentation.) -/
def isJsWs (c : Char) : Bool :=
  c = ' ' || c = '\t' || c = '\n' || c = '\r' || c = '\x0b' || c = '\x0c' ||
    c.toNat = 160 || c.toNat = 65279

/-- Length of the maximal whitespace run at the head: what greedy `\s*`
consumes. -/
def wsRunLen : List Char → Nat
  | c :: rest => if isJsWs c then wsRunLen rest + 1 else 0
  | [] => 0

/-- The characters the lazy group `[^\[\]\{\}]` rejects. -/
def isBracketChar (c : Char) : Bool :=
  c = '[' || c = ']' || c = '\x7b' || c = '\x7d'

/-- The terminator `\n\s*\]` of the collapse regex: a newline, then greedy
whitespace, then `]`.  Because `]` is not whitespace, backtracking the greedy
`\s*` can never help, so the match is unique: the maximal whitespace run must
be followed directly by `]`.  Returns the text after the `]`. -/
def matchTermin : List Char → Option (List Char)
  | '\n' :: rest =>
    (match rest.drop (wsRunLen rest) with
     | ']' :: rest2 => some rest2
     | _ => none)
  | _ => none

/-- The lazy group `([^\[\]\{\}]*?)` followed by the terminator: starting from
the shortest candidate, first try the terminator at the current position, then
extend by one character while it stays outside the rejected class.  Returns
the group's text and the text after the full match. -/
def innerScan : Nat → List Char → List Char → Option (List Char × List Char)
  | 0, _, _ => none
  | fuel + 1, acc, cs =>
    match matchTermin cs with
    | some rest => some (acc.reverse, rest)
    | none =>
      match cs with
      | c :: rest =>
        if isBracketChar c then none
        else innerScan fuel (c :: acc) rest
      | [] => none

/-- The greedy group `(\s*)` right after `\[\n`: try the longest whitespace
prefix first and backtrack one character at a time, running the lazy scan
from the corresponding start. -/
def tryGroup1 : Nat → List Char → Option (List Char × List Char)
  | g, cs =>
    match innerScan (cs.length + 1) [] (cs.drop g) with
    | some r => some r
    | none =>
      match g with
      | 0 => none
      | g' + 1 => tryGroup1 g' cs

/-- A full match attempt of `\[\n(\s*)([^\[\]\{\}]*?)\n\s*\]` anchored at the
current position: literal `[`, literal newline, then the backtracking groups.
Returns the lazy group's text (the only capture the callback uses) and the
text after the match. -/
def matchCollapseAt : List Char → Option (List Char × List Char)
  | '[' :: '\n' :: cs => tryGroup1 (wsRunLen cs) cs
  | _ => none

/-- `inner.replace(/\n\s*/g, ' ')`: each newline together with the following
whitespace run becomes one space. -/
def joinLines : Nat → List Char → List Char
  | 0, cs => cs
  | fuel + 1, cs =>
    match cs with
    | [] => []
    | '\n' :: rest => ' ' :: joinLines fuel (rest.drop (wsRunLen rest))
    | c :: rest => c :: joinLines fuel rest

/-- `.replace(/,\s*/g, ', ')`: each comma together with the following
whitespace run becomes a comma and one space.  Note that this rewrites every
comma of the interior text, including commas inside string literals. -/
def normalizeCommas : Nat → List Char → List Char
  | 0, cs => cs
  | fuel + 1, cs =>
    match cs with
    | [] => []
    | ',' :: rest => ',' :: ' ' :: normalizeCommas fuel (rest.drop (wsRunLen rest))
    | c :: rest => c :: normalizeCommas fuel rest

/-- `String.prototype.trim`. -/
def jsTrim (cs : List Char) : List Char :=
  ((cs.dropWhile isJsWs).reverse.dropWhile isJsWs).reverse

/-- The replacement callback: join the interior lines, normalize commas, trim;
an empty result collapses to `[]`, otherwise the one-line body is wrapped in
brackets. -/
def collapseCallback (inner : List Char) : List Char :=
  let one := jsTrim (normalizeCommas (inner.length + 1) (joinLines (inner.length + 1) inner))
  if one.isEmpty then ['[', ']'] else '[' :: (one ++ [']'])

/-- The global replace: scan left to right, replace the leftmost match via the
callback and resume immediately after the matched text. -/
def collapseScan : Nat → List Char → List Char
  | 0, cs => cs
  | fuel + 1, cs =>
    match matchCollapseAt cs with
    | some (inner, after) => collapseCallback inner ++ collapseScan fuel after
    | none =>
      match cs with
      | [] => []
      | c :: rest => c :: collapseScan fuel rest

/-- `prettyPrintJSON(obj)` from the source: `JSON.stringify(obj, null, 2)`
followed by the array-collapsing global regex replacement. -/
def prettyPrintJSON (v : JSVal) : String :=
  let s := stringifyVal v 0
  ⟨collapseScan (s.data.length + 1) s.data⟩

/-! ## Heap model for the aliasing behaviour of `loadExampleAndApply`

The pure value model above cannot express sharing, so the load-example /
array-edit interaction (claim about `VariableState` / `Defaults`
independence) is modelled with an explicit heap: array values live in a heap
of scalar lists and are passed around as references, exactly the way
JavaScript passes array objects; scalars are immediate.  Per the data model of
the schema (values are booleans, numbers, strings or sequences of numbers),
heap arrays hold scalars. -/

/-- Scalar (immediately copied) JavaScript values. -/
inductive HScal where
  | b (x : Bool)
  | n (x : Int)
  | s (x : String)
  | nil
  deriving DecidableEq, Repr

/-- A JavaScript value as held in a variable slot: a scalar, or a reference to
a heap-allocated array. -/
inductive HVal where
  | scal (x : HScal)
  | ref (r : Nat)
  deriving DecidableEq, Repr

/-- The heap: arrays of scalars, addressed by index; allocation appends. -/
abbrev Heap := List (List HScal)

def HScal.toJSVal : HScal → JSVal
  | .b x => .bool x
  | .n x => .num x
  | .s x => .str x
  | .nil => .null

/-- The structural value a slot denotes: what `JSON.stringify` or a deep-equal
comparison sees at a given moment. -/
def deepValue (heap : Heap) : HVal → JSVal
  | .scal x => x.toJSVal
  | .ref r =>
    match heap.get? r with
    | some xs => .arr (xs.map HScal.toJSVal)
    | none => .null

/-- First-match lookup in an `HVal` document. -/
def lookupFieldH : List (String × HVal) → String → Option HVal
  | [], _ => none
  | (k', v) :: rest, k => if k' = k then some v else lookupFieldH rest k

/-- A scalar value viewed in the heap model; `none` for arrays and objects. -/
def toHScal : JSVal → Option HScal
  | .bool x => some (HScal.b x)
  | .num x => some (HScal.n x)
  | .str x => some (HScal.s x)
  | .null => some HScal.nil
  | _ => none

/-- `structuredClone` / allocation of a literal descriptor value in the heap
model: scalars are immediate, an array of scalars is allocated fresh.  `none`
for value shapes outside the schema's value grammar. -/
def cloneAllocH (heap : Heap) : JSVal → Option (Heap × HVal)
  | .bool x => some (heap, .scal (.b x))
  | .num x => some (heap, .scal (.n x))
  | .str x => some (heap, .scal (.s x))
  | .null => some (heap, .scal .nil)
  | .arr xs =>
    (xs.mapM toHScal).map (fun scals => (heap ++ [scals], .ref heap.length))
  | .obj _ => none

/-- `defaultFor` in the heap model: the same resolution order as `defaultFor`,
but every array the function produces (a cloned literal default or
`Array(count).fill(0)`) is a fresh allocation, exactly as in JavaScript. -/
def defaultForH (heap : Heap) (desc : JSVal) : Option (Heap × HVal) :=
  if ¬ jsTruthy desc then some (heap, .scal .nil)
  else
    match getOwn desc "default" with
    | some d => cloneAllocH heap d
    | none =>
      match getOwn desc "type" with
      | some (.str "boolean") => some (heap, .scal (.b false))
      | some (.str "number") => some (heap, .scal (.n 0))
      | some (.str "number_array") =>
        match jsOr (getOwn desc "count") (.num 2) with
        | .num c =>
          if 0 ≤ c ∧ c < 4294967296 then
            some (heap ++ [List.replicate c.toNat (HScal.n 0)], .ref heap.length)
          else none
        | _ => some (heap ++ [[HScal.n 0]], .ref heap.length)
      | some (.str "string") => some (heap, .scal (.s ""))
      | some (.str "choice") =>
        some (heap, .scal (.s (match getChoices desc with | [] => "" | c :: _ => c)))
      | _ => some (heap, .scal .nil)

/-- `buildSanitizedFromSource` in the heap model: a key owned by the source
document copies the slot value verbatim — for an array value that is the
reference, shared with the source and with any other copy made from the same
source — while missing keys get freshly allocated defaults. -/
def buildSanitizedH (heap : Heap) :
    List (String × JSVal) → Option (List (String × HVal)) →
    Option (Heap × List (String × HVal))
  | [], _ => some (heap, [])
  | (k, desc) :: rest, source =>
    if isSectionDesc desc then
      buildSanitizedH heap rest source
    else
      match source.bind (fun fs => lookupFieldH fs k) with
      | some v =>
        (buildSanitizedH heap rest source).map (fun (h, tail) => (h, (k, v) :: tail))
      | none =>
        match defaultForH heap desc with
        | some (h1, d) =>
          (buildSanitizedH h1 rest source).map (fun (h, tail) => (h, (k, d) :: tail))
        | none => none

/-- The success branch of `loadExampleAndApply`: `variables` and `defaults`
are built by two separate `buildSanitizedFromSource(src)` calls over the same
fetched example document. -/
def loadExampleApplyH (heap : Heap) (cfgVars : List (String × JSVal))
    (src : List (String × HVal)) :
    Option (Heap × List (String × HVal) × List (String × HVal)) :=
  match buildSanitizedH heap cfgVars (some src) with
  | none => none
  | some (h1, vars) =>
    match buildSanitizedH h1 cfgVars (some src) with
    | none => none
    | some (h2, defs) => some (h2, vars, defs)

/-- Heap array write `heap[r][idx] = x` (in-bounds; the scenario below only
writes in-bounds indices). -/
def heapWrite (heap : Heap) (r idx : Nat) (x : HScal) : Heap :=
  match heap.get? r with
  | some xs => heap.set r (xs.set idx x)
  | none => heap

/-- The `number_array` element-edit handler in the heap model: if the backing
slot is not an array, a fresh zero-filled array of the resolved count is
allocated into the slot first; then the edited index of the backing array is
written in place — through the reference, so a shared array is mutated for
every holder of the reference. -/
def numberArrayEditH (heap : Heap) (vars : List (String × HVal)) (key : String)
    (count : Nat) (idx : Nat) (newVal : Int) : Heap × List (String × HVal) :=
  match lookupFieldH vars key with
  | some (.ref r) => (heapWrite heap r idx (.n newVal), vars)
  | _ =>
    let r := heap.length
    let heap1 := heap ++ [List.replicate count (HScal.n 0)]
    (heapWrite heap1 r idx (.n newVal),
     vars.map (fun kv => if kv.1 = key then (kv.1, HVal.ref r) else kv))

/-! ## Claim theorems -/

/-- C3: the round-trip claim `parse(toDisplayText(state))` deep-equals `state`
fails on the code for states whose array elements are strings containing a
comma.  For the state `{a: ["a,b"]}` — booleans/numbers/strings/arrays of
those, so inside the claim's class — `prettyPrintJSON` renders the text
`{"a": ["a, b"]}` (the comma normalization of the collapse callback rewrites
the comma *inside* the string literal), which is also exactly the rendering of
the different state `{a: ["a, b"]}`; a single text cannot parse back
deep-equal to both, so the stated round-trip property is violated at this
input. -/
theorem prettyPrintJSON_roundtrip_failure :
    prettyPrintJSON (.obj [("a", .arr [.str "a,b"])]) =
      "\x7b\n  \"a\": [\"a, b\"]\n\x7d" ∧
    prettyPrintJSON (.obj [("a", .arr [.str "a,b"])]) =
      prettyPrintJSON (.obj [("a", .arr [.str "a, b"])]) ∧
    JSVal.obj [("a", .arr [.str "a,b"])] ≠ JSVal.obj [("a", .arr [.str "a, b"])] := by
  refine ⟨by decide, by decide, by decide⟩

/-- C5: the aliasing scenario refuting the independence of `VariableState` and
`Defaults` after a successful load-example.  Schema: one `number_array`
variable `a` (count 2); example document: `{a: [1, 2]}`, its array living at
heap slot 0.  `loadExampleAndApply` builds `variables` and `defaults` by two
separate `buildSanitizedFromSource(src)` calls, but both copy the *reference*
to the source array verbatim, so both end up holding `ref 0` and no new array
is allocated.  At load time `Defaults.a` deep-equals `[1, 2]`; one in-place
element edit of `VariableState.a` (index 0 set to 9) rewrites the shared heap
slot, after which `Defaults.a` deep-equals `[9, 2]` — no longer its load-time
value. -/
theorem loadExample_defaults_not_independent :
    loadExampleApplyH [[HScal.n 1, HScal.n 2]]
        [("a", .obj [("type", .str "number_array"), ("count", .num 2)])]
        [("a", HVal.ref 0)] =
      some ([[HScal.n 1, HScal.n 2]], [("a", HVal.ref 0)], [("a", HVal.ref 0)]) ∧
    deepValue [[HScal.n 1, HScal.n 2]] (HVal.ref 0) = .arr [.num 1, .num 2] ∧
    numberArrayEditH [[HScal.n 1, HScal.n 2]] [("a", HVal.ref 0)] "a" 2 0 9 =
      ([[HScal.n 9, HScal.n 2]], [("a", HVal.ref 0)]) ∧
    deepValue [[HScal.n 9, HScal.n 2]] (HVal.ref 0) = .arr [.num 9, .num 2] ∧
    JSVal.arr [.num 9, .num 2] ≠ JSVal.arr [.num 1, .num 2] := by
  refine ⟨by decide, by decide, by decide, by decide, by decide⟩

/-- C6: reset behaviour.  Whenever a persisted user state exists (the stored
entry parses to a state object), `resetToDefaults` replaces the variables with
a copy of that state and reports restoration; when none exists
(`loadUserState()` yielded `null`), it replaces the variables with a copy of
the defaults and reports a reset.  The spec's scenario — persisted user state
`{x: 9}` against defaults `{x: 0}` — restores `{x: 9}` with the "Restored"
status. -/
theorem resetToDefaults_spec :
    (∀ (fs defaults : List (String × JSVal)),
      resetToDefaults (.obj fs) defaults =
        (.obj fs, "Restored last used state (from this tab).")) ∧
    (∀ defaults : List (String × JSVal),
      resetToDefaults .null defaults = (.obj defaults, "Reset to defaults.")) ∧
    resetToDefaults (.obj [("x", .num 9)]) [("x", .num 0)] =
      (.obj [("x", .num 9)], "Restored last used state (from this tab).") := by
  refine ⟨fun fs defaults => rfl, fun defaults => rfl, by decide⟩

/-- C9: array-element edit safety.  For a `number_array` control whose
resolved count is the number `c` (a valid array length), an element edit at an
in-range index applied while the backing value is *not* an array first
reinitializes the backing value to `Array(count).fill(0)` and then writes the
edited index — the handler returns a value (never a thrown exception) equal to
the zero-filled length-`c` array with position `idx` set to the new number. -/
theorem numberArrayEdit_safe (desc value cur : JSVal) (idx : Nat) (newVal : Int)
    (c : Int) (hc : numberArrayCount desc value = .num c)
    (h0 : 0 ≤ c) (h32 : c < 4294967296)
    (hcur : isJsArr cur = false) (hidx : idx < c.toNat) :
    numberArrayEdit (numberArrayCount desc value) cur idx newVal =
      some (.arr ((List.replicate c.toNat (.num 0)).set idx (.num newVal))) := by
  rw [hc]
  have hfill : jsArrayFill0 (.num c) = some (List.replicate c.toNat (.num 0)) := by
    simp [jsArrayFill0, h0, h32]
  have hset : jsArraySet (List.replicate c.toNat (.num 0)) idx (.num newVal) =
      (List.replicate c.toNat (.num 0)).set idx (.num newVal) := by
    simp [jsArraySet, hidx]
  cases cur <;> simp_all [numberArrayEdit, isJsArr]

/-- Witness for C9: a concrete `number_array` descriptor with count 3, a
non-array backing value, and an edit of index 1 to 7, producing `[0, 7, 0]`. -/
theorem numberArrayEdit_safe_witness :
    numberArrayEdit
        (numberArrayCount (.obj [("type", .str "number_array"), ("count", .num 3)]) .null)
        (.str "oops") 1 7 =
      some (.arr ((List.replicate (3 : Int).toNat (.num 0)).set 1 (.num 7))) :=
  numberArrayEdit_safe (.obj [("type", .str "number_array"), ("count", .num 3)])
    .null (.str "oops") 1 7 3 (by decide) (by decide) (by decide) (by decide)
    (by decide)

/-- C10: for a `number_array` descriptor with no literal default, `defaultFor`
produces the zero-filled length-2 array for *every* falsy `count` — an
explicit `count` of 0 included — and also when `count` is absent; only a
positive numeric count determines the array length.  (The code computes
`Array(desc.count || 2).fill(0)`, and `0` falls through `||`.) -/
theorem defaultFor_falsy_count :
    (∀ (desc c : JSVal), getOwn desc "default" = none →
      getOwn desc "type" = some (.str "number_array") →
      getOwn desc "count" = some c → jsTruthy c = false →
      defaultFor desc = some (.arr [.num 0, .num 0])) ∧
    (∀ desc : JSVal, getOwn desc "default" = none →
      getOwn desc "type" = some (.str "number_array") →
      getOwn desc "count" = none →
      defaultFor desc = some (.arr [.num 0, .num 0])) ∧
    (∀ (desc : JSVal) (n : Int), getOwn desc "default" = none →
      getOwn desc "type" = some (.str "number_array") →
      getOwn desc "count" = some (.num n) → 0 < n → n < 4294967296 →
      defaultFor desc = some (.arr (List.replicate n.toNat (.num 0)))) ∧
    defaultFor (.obj [("type", .str "number_array"), ("count", .num 0)]) =
      some (.arr [.num 0, .num 0]) := by
  have htr : ∀ fs : List (String × JSVal), jsTruthy (.obj fs) = true := fun _ => rfl
  refine ⟨?_, ?_, ?_, by decide⟩
  · intro desc c hd ht hc hf
    cases desc <;> simp_all [getOwn, defaultFor, jsOr, jsArrayFill0, jsTruthy]
  · intro desc hd ht hc
    cases desc <;> simp_all [getOwn, defaultFor, jsOr, jsArrayFill0, jsTruthy]
  · intro desc n hd ht hc hpos h32
    have hne : (n != 0) = true := by simp [ne_of_gt hpos]
    cases desc <;>
      simp_all [getOwn, defaultFor, jsOr, jsArrayFill0, jsTruthy, le_of_lt hpos]

/-- Witness for C10: an explicit `count` of 0 yields `[0, 0]`, and an explicit
`count` of 3 yields `[0, 0, 0]`. -/
theorem defaultFor_falsy_count_witness :
    defaultFor (.obj [("type", .str "number_array"), ("count", .num 0)]) =
      some (.arr [.num 0, .num 0]) ∧
    defaultFor (.obj [("type", .str "number_array"), ("count", .num 3)]) =
      some (.arr (List.replicate (3 : Int).toNat (.num 0))) :=
  ⟨defaultFor_falsy_count.1 (.obj [("type", .str "number_array"), ("count", .num 0)])
      (.num 0) (by decide) (by decide) (by decide) (by decide),
   defaultFor_falsy_count.2.2.1 (.obj [("type", .str "number_array"), ("count", .num 3)])
      3 (by decide) (by decide) (by decide) (by decide) (by decide)⟩

instance : IsTotal (Nat × String) (fun a b => a.1 ≤ b.1) :=
  ⟨fun a b => Nat.le_total a.1 b.1⟩

instance : IsTrans (Nat × String) (fun a b => a.1 ≤ b.1) :=
  ⟨fun _ _ _ => Nat.le_trans⟩

/-- C8: choice resolution.  (1) When `desc.choices` is an array, `getChoices`
returns its entries stringified in their original order — so the array takes
precedence over any `choice_<N>` keys also present.  (2) Otherwise, the result
is the stringified values of the descriptor's own `choice_<N>` keys arranged
in ascending order of the integer suffix (witnessed by an index-sorted
permutation of the collected index/value pairs).  (3) With neither form
present the result is empty.  The spec's concrete examples are included. -/
theorem getChoices_spec :
    (∀ (desc : JSVal) (cs : List JSVal),
      getOwn desc "choices" = some (.arr cs) →
      getChoices desc = cs.map jsToString) ∧
    (∀ fs : List (String × JSVal),
      (∀ cs, getOwn (.obj fs) "choices" ≠ some (.arr cs)) →
      ∃ ps : List (Nat × String), ps.Perm (choicePairs fs) ∧
        List.Sorted (fun a b => a.1 ≤ b.1) ps ∧
        getChoices (.obj fs) = ps.map Prod.snd) ∧
    (∀ fs : List (String × JSVal),
      (∀ cs, getOwn (.obj fs) "choices" ≠ some (.arr cs)) →
      choicePairs fs = [] → getChoices (.obj fs) = []) ∧
    getChoices (.obj [("choice_2", .str "B"), ("choice_1", .str "A")]) = ["A", "B"] ∧
    getChoices (.obj [("choices", .arr [.str "X", .str "Y"]), ("choice_1", .str "A")]) =
      ["X", "Y"] := by
  have hbranch : ∀ fs : List (String × JSVal),
      (∀ cs, getOwn (.obj fs) "choices" ≠ some (.arr cs)) →
      getChoices (.obj fs) =
        (if (choicePairs fs).length ≠ 0
         then (sortChoicePairs (choicePairs fs)).map Prod.snd
         else []) := by
    intro fs hno
    rcases hch : getOwn (.obj fs) "choices" with _ | v
    · simp [getChoices, jsTruthy, hch]
    · cases v with
      | arr cs => exact absurd hch (hno cs)
      | bool b => simp [getChoices, jsTruthy, hch]
      | num n => simp [getChoices, jsTruthy, hch]
      | str s => simp [getChoices, jsTruthy, hch]
      | null => simp [getChoices, jsTruthy, hch]
      | obj gs => simp [getChoices, jsTruthy, hch]
  refine ⟨?_, ?_, ?_, by decide, by decide⟩
  · intro desc cs h
    cases desc <;> simp_all [getOwn, getChoices, jsTruthy]
  · intro fs hno
    rw [hbranch fs hno]
    by_cases hlen : (choicePairs fs).length ≠ 0
    · refine ⟨sortChoicePairs (choicePairs fs),
        List.perm_insertionSort _ _, List.sorted_insertionSort _ _, by simp [hlen]⟩
    · have : choicePairs fs = [] := List.length_eq_zero.mp (not_not.mp hlen)
      exact ⟨[], by simp [this], List.sorted_nil, by simp [hlen]⟩
  · intro fs hno hemp
    rw [hbranch fs hno, hemp]
    simp

/-- Witness for C8: the precedence conjunct applied to a concrete descriptor
carrying both a `choices` array and a `choice_1` key, and the sorted-order
conjunct applied to a concrete descriptor with shuffled `choice_<N>` keys. -/
theorem getChoices_spec_witness :
    getChoices (.obj [("choices", .arr [.str "X", .str "Y"]), ("choice_1", .str "A")]) =
      ([JSVal.str "X", JSVal.str "Y"].map jsToString) ∧
    getChoices (.obj [("label", .str "L")]) = [] :=
  ⟨getChoices_spec.1 (.obj [("choices", .arr [.str "X", .str "Y"]), ("choice_1", .str "A")])
      [JSVal.str "X", JSVal.str "Y"] (by decide),
   getChoices_spec.2.2.1 [("label", .str "L")]
      (fun _ h => Option.noConfusion h) (by decide)⟩

/-- C1: for every schema and every source document (`null` included), a
successful `buildSanitizedFromSource` returns a state whose key sequence is
exactly the schema's keys whose descriptor is not a section, in schema order —
so no key of the source document outside the schema survives, no non-section
schema key is missing, and no section key appears. -/
theorem buildSanitized_key_set (cfgVars : List (String × JSVal)) (source : JSVal)
    (st : List (String × JSVal))
    (h : buildSanitizedFromSource cfgVars source = some st) :
    st.map Prod.fst =
      (cfgVars.filter (fun kv => !(isSectionDesc kv.2))).map Prod.fst := by
  induction cfgVars generalizing st with
  | nil =>
    simp only [buildSanitizedFromSource, Option.some.injEq] at h
    subst h
    rfl
  | cons kv rest ih =>
    obtain ⟨k, desc⟩ := kv
    by_cases hs : isSectionDesc desc
    · rw [buildSanitizedFromSource, if_pos hs] at h
      simp [List.filter_cons, hs, ih st h]
    · rw [buildSanitizedFromSource, if_neg hs] at h
      rcases hv : getSourceVal source k with _ | v
      · rw [hv] at h
        rcases hd : defaultFor desc with _ | d
        · rw [hd] at h
          exact absurd h (by simp)
        · rw [hd] at h
          rcases Option.map_eq_some'.mp h with ⟨tail, htail, hst⟩
          subst hst
          simp [List.filter_cons, hs, ih tail htail]
      · rw [hv] at h
        rcases Option.map_eq_some'.mp h with ⟨tail, htail, hst⟩
        subst hst
        simp [List.filter_cons, hs, ih tail htail]

/-- Witness for C1: a schema with a number variable, a section marker and a
boolean variable, sanitized against a document that supplies one schema key
and one junk key: the result's keys are exactly the two non-section schema
keys. -/
theorem buildSanitized_key_set_witness :
    buildSanitizedFromSource
        [("a", .obj [("type", .str "number")]),
         ("g", .obj [("type", .str "section")]),
         ("b", .obj [("type", .str "boolean")])]
        (.obj [("a", .num 42), ("junk", .str "x")]) =
      some [("a", .num 42), ("b", .bool false)] ∧
    ([(("a" : String), JSVal.num 42), ("b", .bool false)].map Prod.fst =
      ([(("a" : String), JSVal.obj [("type", .str "number")]),
        ("g", .obj [("type", .str "section")]),
        ("b", .obj [("type", .str "boolean")])].filter
          (fun kv => !(isSectionDesc kv.2))).map Prod.fst) :=
  ⟨by decide,
   buildSanitized_key_set
     [("a", .obj [("type", .str "number")]),
      ("g", .obj [("type", .str "section")]),
      ("b", .obj [("type", .str "boolean")])]
     (.obj [("a", .num 42), ("junk", .str "x")])
     [("a", .num 42), ("b", .bool false)] (by decide)⟩

/-- Helper: in a successful sanitization over a duplicate-free schema, a
non-section schema key that the (truthy) source document owns is bound in the
result to the copied source value. -/
theorem buildSanitized_lookup_copied (k : String) (v : JSVal) :
    ∀ (cfgVars : List (String × JSVal)) (source : JSVal)
      (st : List (String × JSVal)) (desc : JSVal),
      (cfgVars.map Prod.fst).Nodup →
      buildSanitizedFromSource cfgVars source = some st →
      (k, desc) ∈ cfgVars → isSectionDesc desc = false →
      getSourceVal source k = some v →
      lookupField st k = some v := by
  intro cfgVars
  induction cfgVars with
  | nil =>
    intro source st desc _ _ hmem
    exact absurd hmem (List.not_mem_nil _)
  | cons kv rest ih =>
    intro source st desc hnd h hmem hsec hv
    obtain ⟨k', desc'⟩ := kv
    have hnd1 : k' ∉ rest.map Prod.fst ∧ (rest.map Prod.fst).Nodup := by
      rw [List.map_cons, List.nodup_cons] at hnd
      exact hnd
    rcases List.mem_cons.mp hmem with hhead | htailmem
    · obtain ⟨hk, hdesc⟩ := Prod.mk.injEq .. ▸ hhead
      subst hk
      subst hdesc
      rw [buildSanitizedFromSource, if_neg (by simp [hsec]), hv] at h
      rcases Option.map_eq_some'.mp h with ⟨tail, _, hst⟩
      subst hst
      simp [lookupField]
    · have hk : k ∈ rest.map Prod.fst :=
        List.mem_map.mpr ⟨(k, desc), htailmem, rfl⟩
      have hkk : k' ≠ k := fun e => hnd1.1 (e ▸ hk)
      by_cases hs : isSectionDesc desc'
      · rw [buildSanitizedFromSource, if_pos hs] at h
        exact ih source st desc hnd1.2 h htailmem hsec hv
      · rw [buildSanitizedFromSource, if_neg hs] at h
        rcases hsv : getSourceVal source k' with _ | w
        · rw [hsv] at h
          rcases hd : defaultFor desc' with _ | d
          · rw [hd] at h
            exact absurd h (by simp)
          · rw [hd] at h
            rcases Option.map_eq_some'.mp h with ⟨tail, htail, hst⟩
            subst hst
            rw [lookupField, if_neg hkk]
            exact ih source tail desc hnd1.2 htail htailmem hsec hv
        · rw [hsv] at h
          rcases Option.map_eq_some'.mp h with ⟨tail, htail, hst⟩
          subst hst
          rw [lookupField, if_neg hkk]
          exact ih source tail desc hnd1.2 htail htailmem hsec hv

/-- Helper: in a successful sanitization over a duplicate-free schema, a
non-section schema key that the source document does not supply is bound in
the result to `defaultFor` of its descriptor. -/
theorem buildSanitized_lookup_defaulted (k : String) :
    ∀ (cfgVars : List (String × JSVal)) (source : JSVal)
      (st : List (String × JSVal)) (desc : JSVal),
      (cfgVars.map Prod.fst).Nodup →
      buildSanitizedFromSource cfgVars source = some st →
      (k, desc) ∈ cfgVars → isSectionDesc desc = false →
      getSourceVal source k = none →
      lookupField st k = defaultFor desc := by
  intro cfgVars
  induction cfgVars with
  | nil =>
    intro source st desc _ _ hmem
    exact absurd hmem (List.not_mem_nil _)
  | cons kv rest ih =>
    intro source st desc hnd h hmem hsec hv
    obtain ⟨k', desc'⟩ := kv
    have hnd1 : k' ∉ rest.map Prod.fst ∧ (rest.map Prod.fst).Nodup := by
      rw [List.map_cons, List.nodup_cons] at hnd
      exact hnd
    rcases List.mem_cons.mp hmem with hhead | htailmem
    · obtain ⟨hk, hdesc⟩ := Prod.mk.injEq .. ▸ hhead
      subst hk
      subst hdesc
      rw [buildSanitizedFromSource, if_neg (by simp [hsec]), hv] at h
      rcases hd : defaultFor desc with _ | d
      · rw [hd] at h
        exact absurd h (by simp)
      · rw [hd] at h
        rcases Option.map_eq_some'.mp h with ⟨tail, _, hst⟩
        subst hst
        simp [lookupField]
    · have hk : k ∈ rest.map Prod.fst :=
        List.mem_map.mpr ⟨(k, desc), htailmem, rfl⟩
      have hkk : k' ≠ k := fun e => hnd1.1 (e ▸ hk)
      by_cases hs : isSectionDesc desc'
      · rw [buildSanitizedFromSource, if_pos hs] at h
        exact ih source st desc hnd1.2 h htailmem hsec hv
      · rw [buildSanitizedFromSource, if_neg hs] at h
        rcases hsv : getSourceVal source k' with _ | w
        · rw [hsv] at h
          rcases hd : defaultFor desc' with _ | d
          · rw [hd] at h
            exact absurd h (by simp)
          · rw [hd] at h
            rcases Option.map_eq_some'.mp h with ⟨tail, htail, hst⟩
            subst hst
            rw [lookupField, if_neg hkk]
            exact ih source tail desc hnd1.2 htail htailmem hsec hv
        · rw [hsv] at h
          rcases Option.map_eq_some'.mp h with ⟨tail, htail, hst⟩
          subst hst
          rw [lookupField, if_neg hkk]
          exact ih source tail desc hnd1.2 htail htailmem hsec hv

/-- C2 counterexample: the claim quantifies over *every* key the source
document owns, but a source key outside the schema is dropped by
sanitization, so the output holds no value for it at all.  Schema
`{a: number}` against document `{b: 5}`: the document owns `b`, yet the
sanitized state binds only `a`, and its (absent) binding for `b` differs from
the document's value 5. -/
theorem sanitize_extra_key_counterexample :
    buildSanitizedFromSource [("a", .obj [("type", .str "number")])]
        (.obj [("b", .num 5)]) = some [("a", .num 0)] ∧
    hasOwn (.obj [("b", .num 5)]) "b" = true ∧
    ¬ (lookupField [(("a" : String), JSVal.num 0)] "b" =
        getOwn (.obj [("b", .num 5)]) "b") := by
  refine ⟨by decide, by decide, by decide⟩

/-- C2 (amended): for every schema key `k` that is non-section and that the
source document owns as its own property, the sanitized state binds `k` to
the document's value verbatim (the amendment restricts the claim's
quantification from all owned keys of the document to the owned keys that are
also non-section schema keys — the whitelist drops the rest). -/
theorem sanitize_copies_source_values (cfgVars : List (String × JSVal))
    (source : JSVal) (st : List (String × JSVal)) (k : String) (desc v : JSVal)
    (hnd : (cfgVars.map Prod.fst).Nodup)
    (h : buildSanitizedFromSource cfgVars source = some st)
    (hmem : (k, desc) ∈ cfgVars) (hsec : isSectionDesc desc = false)
    (hv : getOwn source k = some v) :
    lookupField st k = some v := by
  have hsv : getSourceVal source k = some v := by
    cases source <;> simp_all [getOwn, getSourceVal, jsTruthy]
  exact buildSanitized_lookup_copied k v cfgVars source st desc hnd h hmem hsec hsv

/-- Witness for C2 (amended): schema `{a: number}` against document
`{a: 7, junk: 1}` — the sanitized state binds `a` to the document's 7. -/
theorem sanitize_copies_source_values_witness :
    buildSanitizedFromSource [("a", .obj [("type", .str "number")])]
        (.obj [("a", .num 7), ("junk", .num 1)]) = some [("a", .num 7)] ∧
    lookupField [(("a" : String), JSVal.num 7)] "a" = some (JSVal.num 7) :=
  ⟨by decide,
   sanitize_copies_source_values [("a", .obj [("type", .str "number")])]
     (.obj [("a", .num 7), ("junk", .num 1)]) [("a", .num 7)] "a"
     (.obj [("type", .str "number")]) (.num 7)
     (by decide) (by decide) (by decide) (by decide) (by decide)⟩

/-- Helper for idempotence: sanitization only reads source keys that are
schema keys, so prepending a binding for a key absent from the schema tail
does not change the result. -/
theorem buildSanitized_source_cons_irrel (k : String) (v : JSVal) :
    ∀ (rest fs : List (String × JSVal)),
      k ∉ rest.map Prod.fst →
      buildSanitizedFromSource rest (.obj ((k, v) :: fs)) =
        buildSanitizedFromSource rest (.obj fs) := by
  intro rest
  induction rest with
  | nil => intro fs _; rfl
  | cons kv tail ih =>
    intro fs hk
    obtain ⟨k', desc'⟩ := kv
    have hkk : k ≠ k' := fun e => hk (by simp [e])
    have hkt : k ∉ tail.map Prod.fst := fun m => hk (by simp [m])
    have hsv : getSourceVal (.obj ((k, v) :: fs)) k' = getSourceVal (.obj fs) k' := by
      simp [getSourceVal, jsTruthy, getOwn, lookupField, hkk]
    rw [buildSanitizedFromSource, hsv, ih fs hkt, ← buildSanitizedFromSource]

/-- C4: idempotence of sanitization.  Over a duplicate-free schema, feeding a
successful sanitization result back through `buildSanitizedFromSource`
reproduces it exactly: every non-section schema key is present in the state,
so the second pass copies every value verbatim. -/
theorem buildSanitized_idempotent :
    ∀ (cfgVars : List (String × JSVal)) (source : JSVal)
      (st : List (String × JSVal)),
      (cfgVars.map Prod.fst).Nodup →
      buildSanitizedFromSource cfgVars source = some st →
      buildSanitizedFromSource cfgVars (.obj st) = some st := by
  intro cfgVars
  induction cfgVars with
  | nil =>
    intro source st _ h
    simp only [buildSanitizedFromSource, Option.some.injEq] at h
    subst h
    rfl
  | cons kv rest ih =>
    intro source st hnd h
    obtain ⟨k, desc⟩ := kv
    have hnd1 : k ∉ rest.map Prod.fst ∧ (rest.map Prod.fst).Nodup := by
      rw [List.map_cons, List.nodup_cons] at hnd
      exact hnd
    by_cases hs : isSectionDesc desc
    · rw [buildSanitizedFromSource, if_pos hs] at h
      rw [buildSanitizedFromSource, if_pos hs]
      exact ih source st hnd1.2 h
    · rw [buildSanitizedFromSource, if_neg hs] at h
      have main : ∀ (w : JSVal) (tail : List (String × JSVal)),
          buildSanitizedFromSource rest source = some tail →
          st = (k, w) :: tail →
          buildSanitizedFromSource ((k, desc) :: rest) (.obj st) = some st := by
        intro w tail htail hst
        subst hst
        rw [buildSanitizedFromSource, if_neg hs]
        have hsv : getSourceVal (.obj ((k, w) :: tail)) k = some w := by
          simp [getSourceVal, jsTruthy, getOwn, lookupField]
        rw [hsv, buildSanitized_source_cons_irrel k w rest tail hnd1.1,
          ih source tail hnd1.2 htail]
        rfl
      rcases hsv : getSourceVal source k with _ | w
      · rw [hsv] at h
        rcases hd : defaultFor desc with _ | d
        · rw [hd] at h
          exact absurd h (by simp)
        · rw [hd] at h
          rcases Option.map_eq_some'.mp h with ⟨tail, htail, hst⟩
          exact main d tail htail hst.symm
      · rw [hsv] at h
        rcases Option.map_eq_some'.mp h with ⟨tail, htail, hst⟩
        exact main w tail htail hst.symm

/-- Witness for C4: sanitizing the already-sanitized state of the key-set
example reproduces it unchanged. -/
theorem buildSanitized_idempotent_witness :
    buildSanitizedFromSource
        [("a", .obj [("type", .str "number")]),
         ("g", .obj [("type", .str "section")]),
         ("b", .obj [("type", .str "boolean")])]
        (.obj [("a", .num 42), ("junk", .str "x")]) =
      some [("a", .num 42), ("b", .bool false)] ∧
    buildSanitizedFromSource
        [("a", .obj [("type", .str "number")]),
         ("g", .obj [("type", .str "section")]),
         ("b", .obj [("type", .str "boolean")])]
        (.obj [("a", .num 42), ("b", .bool false)]) =
      some [("a", .num 42), ("b", .bool false)] :=
  ⟨by decide,
   buildSanitized_idempotent
     [("a", .obj [("type", .str "number")]),
      ("g", .obj [("type", .str "section")]),
      ("b", .obj [("type", .str "boolean")])]
     (.obj [("a", .num 42), ("junk", .str "x")])
     [("a", .num 42), ("b", .bool false)] (by decide) (by decide)⟩

/-- The complement of the five recognized type tags: true when the
descriptor's `type` is absent, not a string, or a string other than
`boolean`, `number`, `number_array`, `string`, `choice` — the claim's "any
other or missing type tag". -/
def unknownTypeTag (desc : JSVal) : Bool :=
  match getOwn desc "type" with
  | some (.str "boolean") => false
  | some (.str "number") => false
  | some (.str "number_array") => false
  | some (.str "string") => false
  | some (.str "choice") => false
  | _ => true

/-- C7 counterexample: the claim reads "number_array yields a zero-filled
array of length `count` (default 2)", so for the descriptor
`{type: number_array, count: 0}` it predicts the empty array; the code
computes `Array(desc.count || 2).fill(0)` and `0` falls through `||`, so it
returns `[0, 0]` instead. -/
theorem defaultFor_count_zero_counterexample :
    defaultFor (.obj [("type", .str "number_array"), ("count", .num 0)]) =
      some (.arr [.num 0, .num 0]) ∧
    JSVal.arr [.num 0, .num 0] ≠ JSVal.arr [] := by
  refine ⟨by decide, by decide⟩

/-- C7 (amended): the resolution order of `defaultFor` — (1) a defined
literal default always wins and is returned as a deep copy; otherwise by type
tag: (2) `boolean` yields `false`, (3) `number` yields 0, (4) `number_array`
yields a zero-filled array of length `count` when `count` is a positive
number (a valid array length) and of length 2 when `count` is absent or
otherwise falsy (the amendment: an explicit falsy count such as 0 also falls
back to 2, rather than giving length `count`), (5) `string` yields `""`,
(6) `choice` yields the first resolved choice or `""` when none resolve,
(7) any other or missing type tag yields `null`, and (8) a missing /
undefined (falsy) descriptor yields `null`.  Consequently (9) sanitizing
against a `null` source binds every non-section schema key to `defaultFor` of
its descriptor. -/
theorem defaultFor_resolution :
    (∀ desc d : JSVal, getOwn desc "default" = some d →
      defaultFor desc = some (structuredCloneJS d)) ∧
    (∀ desc : JSVal, getOwn desc "default" = none →
      getOwn desc "type" = some (.str "boolean") →
      defaultFor desc = some (.bool false)) ∧
    (∀ desc : JSVal, getOwn desc "default" = none →
      getOwn desc "type" = some (.str "number") →
      defaultFor desc = some (.num 0)) ∧
    (∀ desc : JSVal, getOwn desc "default" = none →
      getOwn desc "type" = some (.str "number_array") →
      (getOwn desc "count" = none ∨
        ∃ c, getOwn desc "count" = some c ∧ jsTruthy c = false) →
      defaultFor desc = some (.arr (List.replicate 2 (.num 0)))) ∧
    (∀ (desc : JSVal) (n : Int), getOwn desc "default" = none →
      getOwn desc "type" = some (.str "number_array") →
      getOwn desc "count" = some (.num n) → 0 < n → n < 4294967296 →
      defaultFor desc = some (.arr (List.replicate n.toNat (.num 0)))) ∧
    (∀ desc : JSVal, getOwn desc "default" = none →
      getOwn desc "type" = some (.str "string") →
      defaultFor desc = some (.str "")) ∧
    (∀ desc : JSVal, getOwn desc "default" = none →
      getOwn desc "type" = some (.str "choice") →
      defaultFor desc = some (.str ((getChoices desc).headD ""))) ∧
    (∀ desc : JSVal, jsTruthy desc = true → getOwn desc "default" = none →
      unknownTypeTag desc = true → defaultFor desc = some .null) ∧
    (∀ desc : JSVal, jsTruthy desc = false → defaultFor desc = some .null) ∧
    (∀ (cfgVars st : List (String × JSVal)) (k : String) (desc : JSVal),
      (cfgVars.map Prod.fst).Nodup →
      buildSanitizedFromSource cfgVars .null = some st →
      (k, desc) ∈ cfgVars → isSectionDesc desc = false →
      lookupField st k = defaultFor desc) := by
  refine ⟨?_, ?_, ?_, ?_, ?_, ?_, ?_, ?_, ?_, ?_⟩
  · intro desc d h
    cases desc <;> simp_all [defaultFor, getOwn, jsTruthy]
  · intro desc hd ht
    cases desc <;> simp_all [defaultFor, getOwn, jsTruthy]
  · intro desc hd ht
    cases desc <;> simp_all [defaultFor, getOwn, jsTruthy]
  · intro desc hd ht hc
    rcases hc with hc | ⟨c, hc, hcf⟩
    · cases desc <;> simp_all [defaultFor, getOwn, jsTruthy, jsOr, jsArrayFill0]
    · cases desc <;> simp_all [defaultFor, getOwn, jsTruthy, jsOr, jsArrayFill0]
  · intro desc n hd ht hc hpos h32
    have hne : (n != 0) = true := by simp [ne_of_gt hpos]
    cases desc <;>
      simp_all [defaultFor, getOwn, jsTruthy, jsOr, jsArrayFill0, le_of_lt hpos]
  · intro desc hd ht
    cases desc <;> simp_all [defaultFor, getOwn, jsTruthy]
  · intro desc hd ht
    rcases hg : getChoices desc with _ | ⟨c, cs⟩ <;>
      cases desc <;> simp_all [defaultFor, getOwn, jsTruthy]
  · intro desc htr hd hu
    rcases hty : getOwn desc "type" with _ | v
    · cases desc <;> simp_all [defaultFor, getOwn, jsTruthy]
    · cases v with
      | str t =>
        rw [unknownTypeTag, hty] at hu
        by_cases h1 : t = "boolean"
        · subst h1; simp at hu
        · by_cases h2 : t = "number"
          · subst h2; simp at hu
          · by_cases h3 : t = "number_array"
            · subst h3; simp at hu
            · by_cases h4 : t = "string"
              · subst h4; simp at hu
              · by_cases h5 : t = "choice"
                · subst h5; simp at hu
                · cases desc <;> simp_all [defaultFor, getOwn, jsTruthy]
      | bool b => cases desc <;> simp_all [defaultFor, getOwn, jsTruthy]
      | num n => cases desc <;> simp_all [defaultFor, getOwn, jsTruthy]
      | arr xs => cases desc <;> simp_all [defaultFor, getOwn, jsTruthy]
      | null => cases desc <;> simp_all [defaultFor, getOwn, jsTruthy]
      | obj fs => cases desc <;> simp_all [defaultFor, getOwn, jsTruthy]
  · intro desc hf
    simp [defaultFor, hf]
  · intro cfgVars st k desc hnd h hmem hsec
    exact buildSanitized_lookup_defaulted k cfgVars .null st desc hnd h hmem hsec rfl

/-- Witness for C7 (amended): concrete instantiations — a literal default
wins; a boolean descriptor defaults to `false`; a zero count falls back to
length 2; a positive count 3 gives length 3; a choice descriptor takes its
first resolved choice; and sanitizing the one-variable schema against `null`
binds the key to its computed default. -/
theorem defaultFor_resolution_witness :
    defaultFor (.obj [("type", .str "number"), ("default", .num 5)]) =
      some (structuredCloneJS (.num 5)) ∧
    defaultFor (.obj [("type", .str "boolean")]) = some (.bool false) ∧
    defaultFor (.obj [("type", .str "number_array"), ("count", .num 0)]) =
      some (.arr (List.replicate 2 (.num 0))) ∧
    defaultFor (.obj [("type", .str "number_array"), ("count", .num 3)]) =
      some (.arr (List.replicate (3 : Int).toNat (.num 0))) ∧
    defaultFor (.obj [("type", .str "choice"), ("choice_2", .str "B"), ("choice_1", .str "A")]) =
      some (.str ((getChoices (.obj [("type", .str "choice"), ("choice_2", .str "B"),
        ("choice_1", .str "A")])).headD "")) ∧
    lookupField [(("a" : String), JSVal.bool false)] "a" =
      defaultFor (.obj [("type", .str "boolean")]) :=
  ⟨defaultFor_resolution.1 (.obj [("type", .str "number"), ("default", .num 5)])
      (.num 5) (by decide),
   defaultFor_resolution.2.1 (.obj [("type", .str "boolean")]) (by decide) (by decide),
   defaultFor_resolution.2.2.2.1 (.obj [("type", .str "number_array"), ("count", .num 0)])
      (by decide) (by decide) (Or.inr ⟨.num 0, by decide, by decide⟩),
   defaultFor_resolution.2.2.2.2.1 (.obj [("type", .str "number_array"), ("count", .num 3)])
      3 (by decide) (by decide) (by decide) (by decide) (by decide),
   defaultFor_resolution.2.2.2.2.2.2.1
      (.obj [("type", .str "choice"), ("choice_2", .str "B"), ("choice_1", .str "A")])
      (by decide) (by decide),
   defaultFor_resolution.2.2.2.2.2.2.2.2.2
      [("a", .obj [("type", .str "boolean")])] [("a", .bool false)] "a"
      (.obj [("type", .str "boolean")])
      (by decide) (by decide) (by decide) (by decide)⟩

end Deesse
